import Mathlib

/-!
Verification of the table-reconstruction core of
`src/backend/services/advanced_ocr.py` (class AdvancedOCR).

The shallow embedding below translates the three pipeline methods
`detect_table_structure`, `clean_and_normalize_data` and
`extract_table_from_image` into executable Lean definitions.

Modelling conventions:
* a positioned OCR token `(text, (y, x), confidence)` becomes the structure
  `Token` with integer pixel coordinates and a rational confidence;
* Python/numpy float arithmetic (medians, `* 1.3`, `* 2`, thresholds,
  averages) is modelled exactly over `ℚ`;
* Python's stable `list.sort` / `sorted` is modelled by `List.insertionSort`
  (stable, structurally recursive);
* `np.median` of a list is the middle element of the ascending sort for odd
  length and the mean of the two middle elements for even length;
* pandas cells are `Cell`: a missing marker (`np.nan`), a string, or a
  numeric value; `pd.to_numeric(col, errors='ignore')` is modelled by
  `parseNum` applied cell-wise, succeeding for a whole column only when every
  non-missing cell parses (plain optionally signed decimal literals; exotic
  float syntax such as exponents is not modelled); column labels are treated
  positionally;
* the external OCR locator call together with any exception raised inside the
  `try` block of `extract_table_from_image` is modelled as the orchestrator's
  input `Except String (List Token)`; wall-clock timing (the
  `processing_time_seconds` field) and the textual `preview` field are not
  modelled.
-/

/-- One recognized word from the external locator: the Python tuple
`(text, (y, x), confidence)`. -/
structure Token where
  text : String
  y : Int
  x : Int
  confidence : ℚ
deriving DecidableEq, Repr

/-- Consecutive gaps of a list: `[l[i+1] - l[i] for i in range(len(l)-1)]`. -/
def consecGaps (l : List Int) : List Int :=
  (l.zip l.tail).map (fun p => p.2 - p.1)

/-- Exact model of `np.median`: middle element of the ascending sort for odd
length, mean of the two middle elements for even length (0 for the empty
list, which the source never takes a median of). -/
def median (qs : List ℚ) : ℚ :=
  let s := List.insertionSort (· ≤ ·) qs
  if s.length % 2 = 1 then s.getD (s.length / 2) 0
  else (s.getD (s.length / 2 - 1) 0 + s.getD (s.length / 2) 0) / 2

/-- Lines 236-239: the `y` values of the tokens in input order, their
ascending sort's consecutive gaps, and `median_gap` with its default of 30
when there are no gaps. -/
def medianGap (text_positions : List Token) : ℚ :=
  let gs := consecGaps (List.insertionSort (· ≤ ·) (text_positions.map Token.y))
  if gs = [] then 30 else median (gs.map (fun g => (g : ℚ)))

/-- Line 240: `y_threshold = max(15, min(50, median_gap * 1.3))`. -/
def yThreshold (text_positions : List Token) : ℚ :=
  max 15 (min 50 (medianGap text_positions * (13 / 10)))

/-- Flushing a completed row (lines 250-252 and 256-258): sort the row's
cells left-to-right by `x` (Python's stable sort on key `item[1]`) and keep
the text only.  The source stores `(text, x, confidence)` triples in
`current_row`; the dropped `y` is carried separately in `previous_y`, so the
whole token is kept here and projected at flush time. -/
def flushRow (current : List Token) : List String :=
  (List.insertionSort (fun a b => a.x ≤ b.x) current).map Token.text

/-- Lines 246-258: the row-grouping walk of `detect_table_structure`.
`current` is `current_row`, `prevY` is `previous_y`, `rows` the accumulated
rows; a token joins the current row when `previous_y` is unset or
`abs(y - previous_y) < y_threshold`, otherwise the current row is flushed and
a new row starts; `previous_y` is updated to every token's `y`. -/
def groupLoop (thr : ℚ) : List Token → List Token → Option Int → List (List String) → List (List String)
  | [], current, _, rows =>
      if current = [] then rows else rows ++ [flushRow current]
  | t :: rest, current, prevY, rows =>
      match prevY with
      | none => groupLoop thr rest (current ++ [t]) (some t.y) rows
      | some py =>
          if ((|t.y - py| : ℤ) : ℚ) < thr then
            groupLoop thr rest (current ++ [t]) (some t.y) rows
          else
            groupLoop thr rest [t] (some t.y)
              (if current = [] then rows else rows ++ [flushRow current])

/-- Lines 242-258: the row-clustering phase of `detect_table_structure`. -/
def groupRows (text_positions : List Token) : List (List String) :=
  groupLoop (yThreshold text_positions) text_positions [] none []

/-- Specification-side row splitting, written from the spec's words: walking
the tokens in input order, a token starts a new row exactly when the absolute
difference between its `y` and the immediately preceding token's `y` is at
least the threshold, and the comparison reference is every token's own `y`
(chained token-to-token). -/
def chunkGo (thr : ℚ) : Int → List Token → List Token → List (List Token)
  | _, acc, [] => [acc]
  | py, acc, t :: rest =>
      if thr ≤ ((|t.y - py| : ℤ) : ℚ) then acc :: chunkGo thr t.y [t] rest
      else chunkGo thr t.y (acc ++ [t]) rest

/-- Specification-side row clustering: the first token always opens a row,
later tokens are split per `chunkGo`. -/
def rowSplitSpec (text_positions : List Token) : List (List Token) :=
  match text_positions with
  | [] => []
  | t :: rest => chunkGo (yThreshold text_positions) t.y [t] rest

/-- Specification-side clamp, from the spec's formula
`threshold = clamp(median_gap * 1.3, min=15, max=50)`. -/
def clampSpec (lo hi x : ℚ) : ℚ := max lo (min hi x)

/-- Lines 272-285: the cluster-growing walk over the ascending `x` values.
A value joins the current cluster while it is within `col_gap_threshold` of
the cluster's last added value, otherwise the cluster is closed (its anchor
is the median of its members) and a new one starts; the final cluster is
flushed (guarded by `if current_cluster:` as in the source). -/
def clusterLoop (thr : ℚ) : List Int → List Int → List ℚ → List ℚ
  | [], current, acc =>
      if current = [] then acc else acc ++ [median (current.map (fun v => (v : ℚ)))]
  | v :: rest, current, acc =>
      if ((v - current.getLastD 0 : ℤ) : ℚ) < thr then
        clusterLoop thr rest (current ++ [v]) acc
      else
        clusterLoop thr rest [v] (acc ++ [median (current.map (fun v => (v : ℚ)))])

/-- Lines 261-285: adaptive column detection over all tokens' `x` values.
The source runs the clustering only under `len(xs) > 1` and `if x_gaps:`;
with zero or one `x` value no `column_clusters` list is built at all, which
this total function renders as zero or one anchor (either way at most one
anchor, so the realignment guard below is false exactly as in the source). -/
def columnAnchors (text_positions : List Token) : List ℚ :=
  let xs_sorted := List.insertionSort (· ≤ ·) (text_positions.map Token.x)
  match xs_sorted with
  | [] => []
  | [v] => [(v : ℚ)]
  | v :: rest =>
      let x_gaps := consecGaps xs_sorted
      let col_gap_threshold := max 20 (median (x_gaps.map (fun g => (g : ℚ))) * 2)
      clusterLoop col_gap_threshold rest [v] []

/-- Lines 297-298: `min(range(len(column_clusters)), key=lambda i: abs(cell_x
- column_clusters[i]))` — the first index of a nearest anchor (Python's `min`
keeps the earliest minimum). -/
def nearestAnchor (cell_x : Int) (anchors : List ℚ) : Nat :=
  (List.range anchors.length).foldl
    (fun best i =>
      if |(cell_x : ℚ) - anchors.getD i 0| < |(cell_x : ℚ) - anchors.getD best 0| then i
      else best) 0

/-- Lines 292-304: realign one row against the column anchors.  Each cell
text (in row order) is matched back to the first original token whose text
equals it; that token's `x` picks the nearest anchor; a first landing fills
the slot and later landings are appended after a single space; a cell whose
text matches no token is dropped silently (the inner `for`'s `break` never
fires). -/
def alignRow (text_positions : List Token) (anchors : List ℚ) (row : List String) : List String :=
  row.foldl
    (fun aligned cell_text =>
      match text_positions.find? (fun t => t.text = cell_text) with
      | none => aligned
      | some t =>
          let j := nearestAnchor t.x anchors
          if aligned.getD j "" = "" then aligned.set j cell_text
          else aligned.set j (aligned.getD j "" ++ " " ++ cell_text))
    (List.replicate anchors.length "")

/-- Lines 230-308: `detect_table_structure`.  Empty input returns `[]`; rows
are grouped by `y`; column anchors are derived from all `x` values (only
when there are at least two, as in the source's `len(xs) > 1` guard); the
rows are realigned only when `1 < len(column_clusters) < len(rows[0])`. -/
def detect_table_structure (text_positions : List Token) : List (List String) :=
  if text_positions = [] then []
  else
    let rows := groupRows text_positions
    let xs := text_positions.map Token.x
    if rows ≠ [] ∧ 1 < xs.length then
      let column_clusters := columnAnchors text_positions
      if 1 < column_clusters.length ∧ column_clusters.length < (rows.headD []).length then
        rows.map (alignRow text_positions column_clusters)
      else rows
    else rows

/-- One pandas cell after normalization: `np.nan`, a left-over string, or a
value coerced by `pd.to_numeric`. -/
inductive Cell where
  | missing : Cell
  | str : String → Cell
  | num : ℚ → Cell
deriving DecidableEq, Repr

/-- Digit value of a character, `none` for a non-digit. -/
def digit? (c : Char) : Option Nat :=
  if 48 ≤ c.toNat ∧ c.toNat ≤ 57 then some (c.toNat - 48) else none

/-- Reading a digit string left to right, accumulating its value; fails on
the first non-digit. -/
def readDigitsAux (acc : Nat) : List Char → Option Nat
  | [] => some acc
  | c :: cs =>
      match digit? c with
      | some d => readDigitsAux (10 * acc + d) cs
      | none => none

/-- Unsigned decimal literal: digits with at most one decimal point and at
least one digit overall. -/
def parseUnsigned (cs : List Char) : Option ℚ :=
  match cs.span (fun c => c ≠ '.') with
  | (intD, []) =>
      if intD = [] then none
      else (readDigitsAux 0 intD).map (fun n => (n : ℚ))
  | (intD, _ :: fracD) =>
      if intD = [] ∧ fracD = [] then none
      else
        match readDigitsAux 0 intD, readDigitsAux 0 fracD with
        | some a, some b => some ((a : ℚ) + (b : ℚ) / 10 ^ fracD.length)
        | _, _ => none

/-- Model of the element conversion performed by `pd.to_numeric`: an
optionally signed decimal literal.  (Exponent notation, `inf`/`nan` words and
thousands separators are not modelled.) -/
def parseNum (s : String) : Option ℚ :=
  match s.data with
  | [] => none
  | c :: rest =>
      if c = '-' then (parseUnsigned rest).map (fun q => -q)
      else if c = '+' then parseUnsigned rest
      else parseUnsigned (c :: rest)

/-- The character of a decimal digit. -/
def digitChar (d : Nat) : Char := Char.ofNat (48 + d % 10)

/-- The `k` low decimal digits of `m` (that is, of `m % 10 ^ k`), most
significant first, zero-padded to exactly `k` characters. -/
def padTop : Nat → Nat → List Char
  | 0, _ => []
  | k + 1, m => digitChar (m / 10 ^ k % 10) :: padTop k m

/-- Decimal representation of a natural number, without leading zeros
(beyond the single digit of 0 itself). -/
def intChars (n : Nat) : List Char := padTop (Nat.log 10 n + 1) n

/-- Smallest power exponent `k ≤ d` with `d ∣ 10 ^ k` (0 when none exists;
for every denominator produced by `parseNum` one exists). -/
def kOfDen (d : Nat) : Nat :=
  ((List.range (d + 1)).find? (fun k => d ∣ 10 ^ k)).getD 0

/-- Decimal rendering of a non-negative rational whose denominator divides a
power of ten. -/
def renderNonneg (q : ℚ) : String :=
  let k := kOfDen q.den
  let n := q.num.natAbs * (10 ^ k / q.den)
  if k = 0 then String.mk (intChars n)
  else String.mk (intChars (n / 10 ^ k) ++ '.' :: padTop k n)

/-- Rendering a cell back to the string a rectangular grid would hold for
it: the missing marker prints as the empty string, strings as themselves,
numbers in decimal. -/
def render : Cell → String
  | Cell.missing => ""
  | Cell.str s => s
  | Cell.num q => if q < 0 then "-" ++ renderNonneg (-q) else renderNonneg q

/-- Line 340: `df.replace('', np.nan)` — an empty-string cell becomes the
missing marker. -/
def toCell (s : String) : Cell :=
  if s = "" then Cell.missing else Cell.str s

/-- Whether a cell is no obstacle to numeric coercion of its column: missing
cells and already numeric cells pass, a string must parse. -/
def cellParses : Cell → Bool
  | Cell.missing => true
  | Cell.str s => (parseNum s).isSome
  | Cell.num _ => true

/-- Cell-wise effect of a successful `pd.to_numeric` on a column. -/
def coerceCell : Cell → Cell
  | Cell.str s =>
      match parseNum s with
      | some q => Cell.num q
      | none => Cell.str s
  | c => c

/-- Column `j` of a cell grid (missing beyond a row's width). -/
def column (cells : List (List Cell)) (j : Nat) : List Cell :=
  cells.map (fun r => r.getD j Cell.missing)

/-- Whether every cell of column `j` passes numeric conversion — pandas
`to_numeric(df[col], errors='ignore')` changes the column only when every
element converts. -/
def colAllNumeric (cells : List (List Cell)) (j : Nat) : Bool :=
  (column cells j).all cellParses

/-- Effect of the column-wise decision on one cell: a coerced column's cells
are converted, any other column's cells stay as they are. -/
def applyFlag (flag : Bool) (c : Cell) : Cell :=
  if flag then coerceCell c else c

/-- Whether column `j`'s header label occurs exactly once among the column
labels.  The source's loop indexes by label: `df[col]` yields a single
Series only for a unique label; for a duplicated label (as produced, for
instance, by padding a short header with empty strings) it yields a
DataFrame, `pd.to_numeric` raises `TypeError`, and the bare
`except Exception: pass` swallows it, so such columns are never coerced. -/
def labelUnique (header : List String) (j : Nat) : Bool :=
  header.count (header.getD j "") = 1

/-- One conversion decision per column position: position `j` is coerced
exactly when its label is unique in the header and every cell of the column
converts. -/
def colFlags (header : List String) (cells : List (List Cell)) : List Bool :=
  (List.range header.length).map (fun j => labelUnique header j && colAllNumeric cells j)

/-- Lines 342-346: the per-column coercion loop `for col in df.columns:
try: df[col] = pd.to_numeric(df[col], errors='ignore') except: pass`.
`df.columns` is the header; a label unique in the header selects the Series
at that label's position, which is replaced by its numeric conversion when
every cell converts and left as is otherwise (`errors='ignore'`); a
duplicated label makes `df[col]` a DataFrame, `to_numeric` raises, the
`except` swallows it and the column stays unchanged. -/
def coerceColumns (header : List String) (cells : List (List Cell)) : List (List Cell) :=
  cells.map (fun r => List.zipWith applyFlag (colFlags header cells) r)

/-- Lines 315-316: `num_columns = max(set(row_lengths), key=row_lengths.count)`.
`max` keeps the first element attaining the maximal key; iteration order of
the CPython set is hash/insertion dependent, so the source's tie-break among
equally frequent lengths is effectively unspecified.  The model fixes ties
deterministically to the smallest length (spec §9's deterministic rule); no
judged property depends on a tie. -/
def modeLen (row_lengths : List Nat) : Nat :=
  ((List.insertionSort (· ≤ ·) row_lengths.dedup).foldl
    (fun best v =>
      match best with
      | none => some v
      | some b => if row_lengths.count b < row_lengths.count v then some v else best)
    none).getD 0

/-- Lines 322-330: pad a row with empty strings up to `num_columns`, or
truncate it beyond.  (Line 323's `str(item) if item else ''` is the identity
on strings: only the empty string is falsy, and `str` is the identity.) -/
def padTrunc (num_columns : Nat) (row : List String) : List String :=
  if row.length < num_columns then row ++ List.replicate (num_columns - row.length) ""
  else if num_columns < row.length then row.take num_columns
  else row

/-- The rectangular typed table a `DataFrame` stands for: the column labels
and the data rows. -/
structure Table where
  header : List String
  data : List (List Cell)
deriving DecidableEq, Repr

/-- Lines 310-348: `clean_and_normalize_data`.  Empty grid or modal width 0
give the empty `DataFrame`; otherwise rows are padded/truncated to the modal
width, the first row becomes the header, empty data cells become missing and
fully numeric columns are coerced. -/
def clean_and_normalize_data (rows : List (List String)) : Table :=
  if rows = [] then ⟨[], []⟩
  else
    let row_lengths := rows.map List.length
    let num_columns := modeLen row_lengths
    if num_columns = 0 then ⟨[], []⟩
    else
      let normalized_rows := rows.map (padTrunc num_columns)
      let header_row := normalized_rows.headD []
      let data_rows := normalized_rows.tail
      ⟨header_row, coerceColumns header_row (data_rows.map (fun r => r.map toCell))⟩

/-- Rendering a `Table` back to the grid of strings it displays as: the
header row followed by the data rows, missing cells as empty strings and
numbers in decimal. -/
def toGrid (t : Table) : List (List String) :=
  t.header :: t.data.map (fun r => r.map render)

/-- The structured result dictionary of `extract_table_from_image` (the
wall-clock `processing_time_seconds` and the `preview` string are not
modelled). -/
structure Result where
  success : Bool
  error : Option String
  rows_extracted : Nat
  columns_detected : Nat
  data : Option Table
  confidence : ℚ
  backend : String
deriving DecidableEq, Repr

/-- Rounding half to even, as Python's builtin `round` (on the exact value). -/
def roundHalfEven (q : ℚ) : ℤ :=
  let f := q.num.fdiv q.den
  let r := q - (f : ℚ)
  if r < 1 / 2 then f
  else if 1 / 2 < r then f + 1
  else if f % 2 = 0 then f else f + 1

/-- Line 395: `round(float(avg_conf), 4)`. -/
def round4 (q : ℚ) : ℚ := ((roundHalfEven (q * 10000) : ℤ) : ℚ) / 10000

/-- Lines 350-410: `extract_table_from_image`.  Its input is the outcome of
`extract_text_with_positions` together with the `try`/`except` around the
whole pipeline: an exception anywhere inside the block is `Except.error` with
the exception's message (`str(e)`), and is returned as a failure result with
zeroed statistics; the remaining pipeline is total.  `rows_extracted` is
`len(df)` (the data row count) and `columns_detected` is `len(df.columns)`
(the header width). -/
def extract_table_from_image (backend : String) (locator : Except String (List Token)) : Result :=
  match locator with
  | Except.error e => ⟨false, some e, 0, 0, none, 0, backend⟩
  | Except.ok text_positions =>
      if text_positions = [] then
        ⟨false, some "No text detected", 0, 0, none, 0, backend⟩
      else
        let rows := detect_table_structure text_positions
        if rows = [] then
          ⟨false, some "Could not detect table structure", 0, 0, none, 0, backend⟩
        else
          let df := clean_and_normalize_data rows
          let avg_conf := (text_positions.map Token.confidence).sum / text_positions.length
          ⟨true, none, df.data.length, df.header.length, some df, round4 avg_conf, backend⟩

/-- Spec §8's end-to-end scenario tokens
`[("Name",10,5,0.9), ("Age",10,60,0.85), ("Alice",40,5,0.95), ("30",40,62,0.9),
("Bob",70,6,0.88), ("25",70,59,0.92)]`. -/
def scenarioTokens : List Token :=
  [⟨"Name", 10, 5, 9 / 10⟩, ⟨"Age", 10, 60, 85 / 100⟩, ⟨"Alice", 40, 5, 95 / 100⟩,
   ⟨"30", 40, 62, 9 / 10⟩, ⟨"Bob", 70, 6, 88 / 100⟩, ⟨"25", 70, 59, 92 / 100⟩]

/-- Tokens realizing the spec §8 column-clustering example `x = [5,8,60,62,120]`. -/
def clusterTokens : List Token :=
  [⟨"a", 0, 5, 1⟩, ⟨"b", 0, 8, 1⟩, ⟨"c", 0, 60, 1⟩, ⟨"d", 0, 62, 1⟩, ⟨"e", 0, 120, 1⟩]

/-! ### Row clustering: the source's walk versus the spec's chained splitting -/

theorem flushRow_length (current : List Token) : (flushRow current).length = current.length := by
  simp [flushRow]

theorem groupLoop_eq_chunkGo (thr : ℚ) (rest : List Token) :
    ∀ (current : List Token) (py : Int) (rows : List (List String)), current ≠ [] →
      groupLoop thr rest current (some py) rows
        = rows ++ (chunkGo thr py current rest).map flushRow := by
  induction rest with
  | nil =>
      intro current py rows h
      simp [groupLoop, chunkGo, h]
  | cons t rest ih =>
      intro current py rows h
      simp only [groupLoop, chunkGo]
      by_cases hlt : ((|t.y - py| : ℤ) : ℚ) < thr
      · rw [if_pos hlt, if_neg (not_le.mpr hlt), ih _ _ _ (by simp)]
      · rw [if_neg hlt, if_pos (not_lt.mp hlt), if_neg h, ih _ _ _ (by simp)]
        simp

theorem groupRows_eq_spec (tp : List Token) :
    groupRows tp = (rowSplitSpec tp).map flushRow := by
  cases tp with
  | nil => simp [groupRows, groupLoop, rowSplitSpec]
  | cons t rest =>
      show groupLoop (yThreshold (t :: rest)) (t :: rest) [] none [] = _
      simp only [groupLoop, List.nil_append]
      rw [groupLoop_eq_chunkGo _ rest [t] t.y [] (by simp)]
      simp [rowSplitSpec]

theorem chunkGo_flatten (thr : ℚ) (rest : List Token) :
    ∀ (py : Int) (acc : List Token), (chunkGo thr py acc rest).flatten = acc ++ rest := by
  induction rest with
  | nil => intro py acc; simp [chunkGo]
  | cons t rest ih =>
      intro py acc
      simp only [chunkGo]
      by_cases hle : thr ≤ ((|t.y - py| : ℤ) : ℚ)
      · rw [if_pos hle]
        simp [ih]
      · rw [if_neg hle, ih]
        simp

theorem rowSplitSpec_flatten (tp : List Token) : (rowSplitSpec tp).flatten = tp := by
  cases tp with
  | nil => rfl
  | cons t rest => simp [rowSplitSpec, chunkGo_flatten]

theorem chunkGo_ne_nil (thr : ℚ) (rest : List Token) :
    ∀ (py : Int) (acc : List Token), chunkGo thr py acc rest ≠ [] := by
  induction rest with
  | nil => intro py acc; simp [chunkGo]
  | cons t rest ih =>
      intro py acc
      simp only [chunkGo]
      by_cases hle : thr ≤ ((|t.y - py| : ℤ) : ℚ)
      · rw [if_pos hle]; simp
      · rw [if_neg hle]; exact ih _ _

theorem groupRows_ne_nil (tp : List Token) (h : tp ≠ []) : groupRows tp ≠ [] := by
  rw [groupRows_eq_spec]
  cases tp with
  | nil => exact absurd rfl h
  | cons t rest =>
      simp only [rowSplitSpec, ne_eq, List.map_eq_nil_iff]
      exact chunkGo_ne_nil _ _ _ _

/-- C1: for every token sequence given to the row-clustering phase of
`detect_table_structure`, each input token lands in exactly one emitted row:
the total number of cells across all rows equals the number of input tokens,
and the multiset of emitted cell texts is exactly the multiset of input token
texts (no token duplicated or dropped). -/
theorem row_clustering_conserves_tokens (tp : List Token) :
    ((groupRows tp).map List.length).sum = tp.length
    ∧ (groupRows tp).flatten.Perm (tp.map Token.text) := by
  rw [groupRows_eq_spec]
  have hflat := List.length_flatten (rowSplitSpec tp)
  rw [rowSplitSpec_flatten] at hflat
  constructor
  · rw [List.map_map]
    have hcomp : (List.length ∘ flushRow) = (List.length : List Token → Nat) :=
      funext fun c => flushRow_length c
    rw [hcomp, ← hflat]
  · have h1 : ∀ chunks : List (List Token),
        (chunks.map flushRow).flatten.Perm ((chunks.map (List.map Token.text)).flatten) := by
      intro chunks
      induction chunks with
      | nil => simp
      | cons c cs ih =>
          simp only [List.map_cons, List.flatten_cons]
          exact ((List.perm_insertionSort _ c).map Token.text).append ih
    have h2 : ((rowSplitSpec tp).map (List.map Token.text)).flatten
        = ((rowSplitSpec tp).flatten).map Token.text := by
      rw [List.map_flatten]
    have h3 : ((rowSplitSpec tp).map (List.map Token.text)).flatten = tp.map Token.text := by
      rw [h2, rowSplitSpec_flatten]
    exact h3 ▸ h1 (rowSplitSpec tp)

/-- C3: the row-splitting threshold of `detect_table_structure` equals
`clamp(median_gap * 1.3, min 15, max 50)` with the median of consecutive
gaps of the ascending-sorted `y` values defaulting to 30 when there are no
gaps, and the grouping walk splits exactly as the spec describes: a token
starts a new row precisely when the absolute difference between its `y` and
the immediately preceding token's `y` is at least the threshold, the
reference being updated to every token's `y` (chained token-to-token). -/
theorem row_threshold_and_chaining (tp : List Token) :
    yThreshold tp = clampSpec 15 50 (medianGap tp * (13 / 10))
    ∧ groupRows tp = (rowSplitSpec tp).map flushRow :=
  ⟨rfl, groupRows_eq_spec tp⟩

/-- C10: for every non-empty token sequence `detect_table_structure` returns
a non-empty list of rows, so the orchestrator's failure branch with error
"Could not detect table structure" is unreachable whenever the locator
produced at least one token: the result is a success. -/
theorem detect_structure_nonempty (backend : String) (tp : List Token) (h : tp ≠ []) :
    detect_table_structure tp ≠ []
    ∧ (extract_table_from_image backend (Except.ok tp)).success = true
    ∧ (extract_table_from_image backend (Except.ok tp)).error = none := by
  have hrows := groupRows_ne_nil tp h
  have hdet : detect_table_structure tp ≠ [] := by
    simp only [detect_table_structure, if_neg h]
    split_ifs <;> simp_all [List.map_eq_nil_iff]
  refine ⟨hdet, ?_, ?_⟩ <;>
    simp [extract_table_from_image, if_neg h, if_neg hdet]

theorem detect_structure_nonempty_witness :
    detect_table_structure [⟨"w", 0, 0, 1⟩] ≠ []
    ∧ (extract_table_from_image "B" (Except.ok [⟨"w", 0, 0, 1⟩])).success = true
    ∧ (extract_table_from_image "B" (Except.ok [⟨"w", 0, 0, 1⟩])).error = none :=
  detect_structure_nonempty "B" [⟨"w", 0, 0, 1⟩] (by simp)

/-- C2: the orchestrator always returns a structured result.  A locator that
produced zero tokens gives `success = false`, error "No text detected" and
zeroed statistics; an exception anywhere inside the pipeline is converted to
a failure result carrying that error's message with zeroed statistics; and
every failure result carries an error message. -/
theorem orchestrator_error_results :
    (∀ backend : String,
        extract_table_from_image backend (Except.ok [])
          = ⟨false, some "No text detected", 0, 0, none, 0, backend⟩)
    ∧ (∀ backend msg : String,
        extract_table_from_image backend (Except.error msg)
          = ⟨false, some msg, 0, 0, none, 0, backend⟩)
    ∧ (∀ (backend : String) (locator : Except String (List Token)),
        (extract_table_from_image backend locator).success = false →
          ∃ m, (extract_table_from_image backend locator).error = some m) := by
  refine ⟨fun backend => rfl, fun backend msg => rfl, ?_⟩
  intro backend locator hfail
  cases locator with
  | error e => exact ⟨e, rfl⟩
  | ok tp =>
      by_cases htp : tp = []
      · subst htp
        exact ⟨"No text detected", rfl⟩
      · by_cases hdet : detect_table_structure tp = []
        · refine ⟨"Could not detect table structure", ?_⟩
          simp [extract_table_from_image, if_neg htp, hdet]
        · exfalso
          simp [extract_table_from_image, if_neg htp, if_neg hdet] at hfail

/-- C7: a grid with zero or one rows normalizes to a table with no data rows
(an empty table rather than an error: `clean_and_normalize_data` is total
and returns a table here). -/
theorem small_grid_no_data_rows (g : List (List String)) (h : g.length ≤ 1) :
    (clean_and_normalize_data g).data = [] := by
  cases g with
  | nil => rfl
  | cons r t =>
      cases t with
      | nil =>
          simp only [clean_and_normalize_data, if_neg (List.cons_ne_nil r [])]
          split_ifs <;> simp [coerceColumns]
      | cons r2 t2 => simp at h

theorem small_grid_no_data_rows_witness :
    (clean_and_normalize_data [["a", "b"]]).data = [] :=
  small_grid_no_data_rows [["a", "b"]] (by simp)

/-! ### Column anchors and the realignment guard -/

theorem foldl_length_invariant {α : Type} (step : List String → α → List String)
    (hstep : ∀ acc c, (step acc c).length = acc.length) :
    ∀ (cells : List α) (acc : List String), (cells.foldl step acc).length = acc.length := by
  intro cells
  induction cells with
  | nil => intro acc; rfl
  | cons c cs ih =>
      intro acc
      simp only [List.foldl_cons]
      rw [ih, hstep]

theorem alignRow_length (tp : List Token) (anchors : List ℚ) (row : List String) :
    (alignRow tp anchors row).length = anchors.length := by
  simp only [alignRow]
  rw [foldl_length_invariant _ ?_ row _]
  · exact List.length_replicate _ _
  · intro acc c
    cases tp.find? (fun t => t.text = c) with
    | none => rfl
    | some t =>
        simp only []
        split_ifs <;> simp [List.length_set]

theorem columnAnchors_single (t : Token) : columnAnchors [t] = [(t.x : ℚ)] := by
  simp [columnAnchors, List.insertionSort]

/-- C5: column realignment is applied exactly when the anchor count is
strictly between 1 and the first clustered row's cell count; when applied,
every row is rebuilt by `alignRow` (first token of equal text, nearest
anchor by absolute distance, same-anchor cells concatenated with one space
in encounter order) and has exactly as many cells as there are anchors; when
the condition fails, the clustered rows are returned unchanged. -/
theorem grid_aligner_applied_iff (tp : List Token) :
    detect_table_structure tp =
      (if 1 < (columnAnchors tp).length
          ∧ (columnAnchors tp).length < ((groupRows tp).headD []).length
       then (groupRows tp).map (alignRow tp (columnAnchors tp))
       else groupRows tp)
    ∧ ∀ row : List String,
        (alignRow tp (columnAnchors tp) row).length = (columnAnchors tp).length := by
  refine ⟨?_, fun row => alignRow_length tp (columnAnchors tp) row⟩
  by_cases h : tp = []
  · subst h
    simp [detect_table_structure, groupRows, groupLoop, columnAnchors]
  · have hrows := groupRows_ne_nil tp h
    simp only [detect_table_structure, if_neg h]
    cases tp with
    | nil => exact absurd rfl h
    | cons t rest =>
        cases rest with
        | nil =>
            rw [if_neg (by simp)]
            rw [if_neg (by simp [columnAnchors_single])]
        | cons t2 rest2 =>
            rw [if_pos ⟨hrows, by simp⟩]

/-! ### Concrete evaluations: the end-to-end scenario and the column-cluster example -/

/-- C4: on the spec's end-to-end scenario tokens the pipeline produces
exactly 3 rows with header `["Name","Age"]` and data rows
`[["Alice","30"],["Bob","25"]]`, and the orchestrator result is a success
with `rows_extracted = 2`, `columns_detected = 2` and the "Age" column
coerced to numeric values. -/
theorem end_to_end_scenario :
    detect_table_structure scenarioTokens = [["Name","Age"],["Alice","30"],["Bob","25"]]
    ∧ extract_table_from_image "B" (Except.ok scenarioTokens)
      = ⟨true, none, 2, 2,
         some ⟨["Name","Age"], [[Cell.str "Alice", Cell.num 30],[Cell.str "Bob", Cell.num 25]]⟩,
         9 / 10, "B"⟩ := by
  have hdet : detect_table_structure scenarioTokens
      = [["Name","Age"],["Alice","30"],["Bob","25"]] := by
    norm_num [detect_table_structure, scenarioTokens, groupRows, groupLoop, yThreshold,
      medianGap, consecGaps, median, flushRow, columnAnchors, clusterLoop,
      List.insertionSort, List.orderedInsert, List.getLastD, List.getD, List.cons_ne_nil]
  have hclean : clean_and_normalize_data [["Name","Age"],["Alice","30"],["Bob","25"]]
      = ⟨["Name","Age"], [[Cell.str "Alice", Cell.num 30],[Cell.str "Bob", Cell.num 25]]⟩ := by
    norm_num +decide [clean_and_normalize_data, modeLen, padTrunc, toCell, coerceColumns,
      colFlags, colAllNumeric, column, cellParses, coerceCell, applyFlag, parseNum,
      parseUnsigned, readDigitsAux, digit?, List.span, List.span.loop, List.dedup,
      List.insertionSort, List.orderedInsert, List.count, List.zipWith, List.range,
      List.getD, List.cons_ne_nil]
  have havg : ((scenarioTokens.map Token.confidence).sum : ℚ) / (scenarioTokens.length : ℚ)
      = 9 / 10 := by
    norm_num [scenarioTokens]
  have hq : ((9 : ℚ) / 10 * 10000) = 9000 := by norm_num
  have hround : round4 (9 / 10) = 9 / 10 := by
    rw [round4, roundHalfEven, hq]
    norm_num [Rat.num_ofNat, Rat.den_ofNat, Int.fdiv]
  have hconf : round4 ((scenarioTokens.map Token.confidence).sum / (scenarioTokens.length : ℚ))
      = 9 / 10 := by rw [havg]; exact hround
  refine ⟨hdet, ?_⟩
  simp only [extract_table_from_image,
    if_neg (show ¬(scenarioTokens = []) by simp [scenarioTokens]), hdet,
    if_neg (show ¬([["Name","Age"],["Alice","30"],["Bob","25"]] = ([] : List (List String))) by
      simp),
    hclean, hconf]
  rfl

/-- C9 counterexample: on the x values `[5,8,60,62,120]` the code's column
clustering (gap threshold `max(20, median x-gap * 2) = 55`) does NOT yield 3
anchors: the gap 52 between 8 and 60 is below the threshold, so the first
four values merge into one cluster. -/
theorem column_cluster_not_three_anchors :
    ¬ ((columnAnchors clusterTokens).length = 3) := by
  have h : columnAnchors clusterTokens = [34, 120] := by
    norm_num [columnAnchors, clusterTokens, List.insertionSort, List.orderedInsert,
      consecGaps, median, clusterLoop, List.getLastD, List.getD]
  rw [h]
  simp

/-- C9 amended: on the x values `[5,8,60,62,120]` the column clustering with
its gap threshold `max(20, median x-gap * 2) = 55` yields exactly 2 anchors,
at 34 (median of the merged cluster `[5,8,60,62]`) and 120. -/
theorem column_cluster_two_anchors :
    columnAnchors clusterTokens = [34, 120] := by
  norm_num [columnAnchors, clusterTokens, List.insertionSort, List.orderedInsert,
    consecGaps, median, clusterLoop, List.getLastD, List.getD]

/-! ### Decimal printing and parsing round-trip -/

theorem digitChar_facts (d : Nat) :
    digit? (digitChar d) = some (d % 10)
    ∧ digitChar d ≠ '.' ∧ digitChar d ≠ '-' ∧ digitChar d ≠ '+' := by
  have h : d % 10 < 10 := Nat.mod_lt _ (by norm_num)
  rw [digitChar]
  set e := d % 10 with he
  clear_value e
  interval_cases e <;> exact ⟨rfl, by decide, by decide, by decide⟩

theorem padTop_length (k m : Nat) : (padTop k m).length = k := by
  induction k generalizing m with
  | zero => rfl
  | succ k ih => simp [padTop, ih]

theorem padTop_mem (k m : Nat) : ∀ c ∈ padTop k m, ∃ d, c = digitChar d := by
  induction k generalizing m with
  | zero => intro c hc; simp [padTop] at hc
  | succ k ih =>
      intro c hc
      rcases List.mem_cons.mp hc with h | h
      · exact ⟨_, h⟩
      · exact ih m c h

theorem readDigitsAux_padTop (k : Nat) :
    ∀ m acc, readDigitsAux acc (padTop k m) = some (acc * 10 ^ k + m % 10 ^ k) := by
  induction k with
  | zero => intro m acc; simp [padTop, readDigitsAux, Nat.mod_one]
  | succ k ih =>
      intro m acc
      have hd : m / 10 ^ k % 10 < 10 := Nat.mod_lt _ (by norm_num)
      simp only [padTop, readDigitsAux, (digitChar_facts (m / 10 ^ k % 10)).1,
        Nat.mod_eq_of_lt hd]
      rw [ih m]
      congr 1
      rw [Nat.mod_pow_succ]
      ring

theorem readDigitsAux_intChars (n : Nat) : readDigitsAux 0 (intChars n) = some n := by
  rw [intChars, readDigitsAux_padTop]
  simp only [Nat.zero_mul, Nat.zero_add]
  congr 1
  exact Nat.mod_eq_of_lt (Nat.lt_pow_succ_log_self (by norm_num) n)

theorem intChars_ne_nil (n : Nat) : intChars n ≠ [] := by
  intro h
  have := padTop_length (Nat.log 10 n + 1) n
  rw [← intChars, h] at this
  simp at this

theorem intChars_mem (n : Nat) : ∀ c ∈ intChars n, ∃ d, c = digitChar d :=
  padTop_mem _ n

theorem span_loop_all (p : Char → Bool) :
    ∀ (l acc : List Char), (∀ c ∈ l, p c = true) →
      List.span.loop p l acc = (acc.reverse ++ l, []) := by
  intro l
  induction l with
  | nil => intro acc h; simp [List.span.loop]
  | cons c cs ih =>
      intro acc h
      simp only [List.span.loop, h c (List.mem_cons_self c cs), if_true]
      rw [ih (c :: acc) (fun x hx => h x (List.mem_cons_of_mem _ hx))]
      simp

theorem span_loop_break (p : Char → Bool) (sep : Char) (l₂ : List Char) (hsep : p sep = false) :
    ∀ (l₁ acc : List Char), (∀ c ∈ l₁, p c = true) →
      List.span.loop p (l₁ ++ sep :: l₂) acc = (acc.reverse ++ l₁, sep :: l₂) := by
  intro l₁
  induction l₁ with
  | nil =>
      intro acc h
      simp [List.span.loop, hsep]
  | cons c cs ih =>
      intro acc h
      simp only [List.cons_append, List.span.loop, h c (List.mem_cons_self c cs), if_true,
        List.append_eq]
      rw [ih (c :: acc) (fun x hx => h x (List.mem_cons_of_mem _ hx))]
      simp

theorem notDot_digitChar (d : Nat) : (!decide (digitChar d = '.')) = true := by
  simp [(digitChar_facts d).2.1]

theorem parseUnsigned_intChars (n : Nat) : parseUnsigned (intChars n) = some (n : ℚ) := by
  have hall : ∀ c ∈ intChars n, (!decide (c = '.')) = true := by
    intro c hc
    obtain ⟨d, rfl⟩ := intChars_mem n c hc
    exact notDot_digitChar d
  have hspan : List.span (fun c => !decide (c = '.')) (intChars n) = (intChars n, []) := by
    rw [List.span, span_loop_all _ _ _ hall]
    simp
  simp only [parseUnsigned, ne_eq, decide_not]
  rw [hspan]
  simp [intChars_ne_nil n, readDigitsAux_intChars n]

theorem parseUnsigned_decimal (n k : Nat) :
    parseUnsigned (intChars (n / 10 ^ k) ++ '.' :: padTop k n) = some ((n : ℚ) / 10 ^ k) := by
  have hall : ∀ c ∈ intChars (n / 10 ^ k), (!decide (c = '.')) = true := by
    intro c hc
    obtain ⟨d, rfl⟩ := intChars_mem _ c hc
    exact notDot_digitChar d
  have hspan : List.span (fun c => !decide (c = '.'))
      (intChars (n / 10 ^ k) ++ '.' :: padTop k n)
      = (intChars (n / 10 ^ k), '.' :: padTop k n) := by
    rw [List.span, span_loop_break _ '.' _ (by simp) _ _ hall]
    simp
  simp only [parseUnsigned, ne_eq, decide_not]
  rw [hspan]
  have hne : ¬(intChars (n / 10 ^ k) = [] ∧ padTop k n = []) := by
    rintro ⟨h1, -⟩
    exact intChars_ne_nil _ h1
  simp only [hne, if_false, readDigitsAux_intChars, readDigitsAux_padTop, padTop_length,
    Nat.zero_mul, Nat.zero_add]
  congr 1
  have h10 : ((10 : ℚ) ^ k) ≠ 0 := by positivity
  field_simp
  have hdm : n / 10 ^ k * 10 ^ k + n % 10 ^ k = n := by
    rw [Nat.mul_comm]
    exact Nat.div_add_mod n (10 ^ k)
  exact_mod_cast congrArg (fun m : Nat => (m : ℚ)) hdm

theorem kOfDen_dvd (d : Nat) (h : d ∣ 10 ^ d) : d ∣ 10 ^ kOfDen d := by
  have hsome : ((List.range (d + 1)).find? (fun k => d ∣ 10 ^ k)).isSome := by
    rw [List.find?_isSome]
    exact ⟨d, by simp [List.mem_range], by simpa using h⟩
  obtain ⟨k, hk⟩ := Option.isSome_iff_exists.mp hsome
  rw [kOfDen, hk]
  simpa using List.find?_some hk

theorem dvd_ten_pow_self (d m : Nat) (hd : d ≠ 0) (h : d ∣ 10 ^ m) : d ∣ 10 ^ d := by
  rw [← Nat.factorization_le_iff_dvd hd (pow_ne_zero d (by norm_num))]
  rw [Finsupp.le_def]
  intro p
  rw [Nat.factorization_pow]
  simp only [Finsupp.smul_apply, smul_eq_mul]
  have hfrom : d.factorization ≤ (10 ^ m).factorization :=
    (Nat.factorization_le_iff_dvd hd (pow_ne_zero m (by norm_num))).mpr h
  rw [Finsupp.le_def] at hfrom
  have hfromp := hfrom p
  rw [Nat.factorization_pow] at hfromp
  simp only [Finsupp.smul_apply, smul_eq_mul] at hfromp
  by_cases hp : (Nat.factorization 10) p = 0
  · rw [hp] at hfromp ⊢
    omega
  · have h1 : 1 ≤ (Nat.factorization 10) p := Nat.one_le_iff_ne_zero.mpr hp
    have h2 : d.factorization p < d := Nat.factorization_lt p hd
    calc d.factorization p ≤ d * 1 := by omega
      _ ≤ d * (Nat.factorization 10) p := Nat.mul_le_mul_left d h1

theorem parseUnsigned_renderAux (k n : Nat) :
    parseUnsigned (if k = 0 then String.mk (intChars n)
        else String.mk (intChars (n / 10 ^ k) ++ '.' :: padTop k n)).data
      = some ((n : ℚ) / 10 ^ k) := by
  by_cases hk : k = 0
  · subst hk
    rw [if_pos rfl]
    show parseUnsigned (intChars n) = some ((n : ℚ) / 10 ^ 0)
    rw [parseUnsigned_intChars]
    norm_num
  · rw [if_neg hk]
    exact parseUnsigned_decimal n k

theorem parseUnsigned_renderNonneg (q : ℚ) (hq : 0 ≤ q) (h : q.den ∣ 10 ^ q.den) :
    parseUnsigned (renderNonneg q).data = some q := by
  have hdvd : q.den ∣ 10 ^ kOfDen q.den := kOfDen_dvd _ h
  have hnum0 : (0 : ℤ) ≤ q.num := Rat.num_nonneg.mpr hq
  have hden0 : (q.den : ℚ) ≠ 0 := Nat.cast_ne_zero.mpr q.den_nz
  have hmul : (q.den : ℚ) * ((10 ^ kOfDen q.den / q.den : ℕ) : ℚ) = (10 : ℚ) ^ kOfDen q.den := by
    have := congrArg (fun m : ℕ => (m : ℚ)) (Nat.mul_div_cancel' hdvd)
    push_cast at this
    exact this
  have habs : ((q.num.natAbs : ℕ) : ℚ) = (q.num : ℚ) := by
    rw [Int.cast_natAbs]
    exact_mod_cast abs_of_nonneg hnum0
  have hval : ((q.num.natAbs * (10 ^ kOfDen q.den / q.den) : ℕ) : ℚ)
      = q * 10 ^ kOfDen q.den := by
    calc ((q.num.natAbs * (10 ^ kOfDen q.den / q.den) : ℕ) : ℚ)
        = ((q.num.natAbs : ℕ) : ℚ) * ((10 ^ kOfDen q.den / q.den : ℕ) : ℚ) := by push_cast; ring
      _ = (q.num : ℚ) * ((10 ^ kOfDen q.den / q.den : ℕ) : ℚ) := by rw [habs]
      _ = (q.num : ℚ) / (q.den : ℚ) * ((q.den : ℚ) * ((10 ^ kOfDen q.den / q.den : ℕ) : ℚ)) := by
            field_simp
      _ = q * 10 ^ kOfDen q.den := by rw [hmul, Rat.num_div_den]
  have hshape : renderNonneg q
      = if kOfDen q.den = 0 then String.mk (intChars (q.num.natAbs * (10 ^ kOfDen q.den / q.den)))
        else String.mk (intChars ((q.num.natAbs * (10 ^ kOfDen q.den / q.den)) / 10 ^ kOfDen q.den)
          ++ '.' :: padTop (kOfDen q.den) (q.num.natAbs * (10 ^ kOfDen q.den / q.den))) := rfl
  rw [hshape, parseUnsigned_renderAux, hval]
  congr 1
  have h10 : ((10 : ℚ) ^ kOfDen q.den) ≠ 0 := by positivity
  field_simp

theorem renderNonneg_head (q : ℚ) : ∃ d cs, (renderNonneg q).data = digitChar d :: cs := by
  simp only [renderNonneg]
  split_ifs with hk
  · exact ⟨_, _, rfl⟩
  · exact ⟨_, _, rfl⟩

theorem parseNum_render_num (q : ℚ) (h : q.den ∣ 10 ^ q.den) :
    parseNum (render (Cell.num q)) = some q := by
  rcases lt_or_le q 0 with hneg | hpos
  · simp only [render, if_pos hneg]
    have hdata : (("-" : String) ++ renderNonneg (-q)).data = '-' :: (renderNonneg (-q)).data := rfl
    simp only [parseNum, hdata, if_pos rfl]
    rw [parseUnsigned_renderNonneg (-q) (by linarith) (by simpa using h)]
    simp
  · rw [render, if_neg (not_lt.mpr hpos)]
    obtain ⟨d, cs, hdata⟩ := renderNonneg_head q
    simp only [parseNum, hdata, (digitChar_facts d).2.2.1, (digitChar_facts d).2.2.2, if_false]
    rw [← hdata]
    exact parseUnsigned_renderNonneg q hpos h

theorem parseUnsigned_den (cs : List Char) (q : ℚ) (h : parseUnsigned cs = some q) :
    ∃ m, q.den ∣ 10 ^ m := by
  simp only [parseUnsigned] at h
  rcases hspan : List.span (fun c => !decide (c = '.')) cs with ⟨intD, rest⟩
  rw [show List.span (fun c => decide ¬(c = '.')) cs
      = List.span (fun c => !decide (c = '.')) cs by simp only [decide_not], hspan] at h
  cases rest with
  | nil =>
      dsimp only at h
      split_ifs at h
      obtain ⟨n, hn, rfl⟩ := Option.map_eq_some'.mp h
      obtain ⟨a, ha, ha2⟩ := Option.bind_eq_some.mp hn
      have hna : n = (a : ℚ) := by simpa using ha2.symm
      exact ⟨0, by simp [hna, Rat.den_natCast]⟩
  | cons c fracD =>
      dsimp only at h
      split_ifs at h
      cases ha : readDigitsAux 0 intD with
      | none => rw [ha] at h; simp at h
      | some a =>
          cases hb : readDigitsAux 0 fracD with
          | none => rw [ha, hb] at h; simp at h
          | some b =>
              rw [ha, hb] at h
              have hq : q = Rat.divInt ((a : ℤ) * 10 ^ fracD.length + (b : ℤ)) (10 ^ fracD.length) := by
                rw [Rat.divInt_eq_div]
                have hq0 : q = (a : ℚ) + (b : ℚ) / 10 ^ fracD.length := by
                  exact (Option.some.injEq _ _ ▸ h).symm
                rw [hq0]
                have h10 : ((10 : ℚ) ^ fracD.length) ≠ 0 := by positivity
                push_cast
                field_simp
              refine ⟨fracD.length, ?_⟩
              have hdvd := Rat.den_dvd ((a : ℤ) * 10 ^ fracD.length + (b : ℤ)) (10 ^ fracD.length)
              rw [← hq] at hdvd
              have : ((q.den : ℤ)) ∣ (((10 ^ fracD.length : ℕ) : ℤ)) := by
                push_cast
                exact_mod_cast hdvd
              exact_mod_cast this

theorem parseNum_den_dvd (s : String) (q : ℚ) (h : parseNum s = some q) :
    q.den ∣ 10 ^ q.den := by
  simp only [parseNum] at h
  cases hd : s.data with
  | nil => rw [hd] at h; simp at h
  | cons c rest =>
      rw [hd] at h
      dsimp only at h
      split_ifs at h
      · obtain ⟨q', hq', rfl⟩ := Option.map_eq_some'.mp h
        obtain ⟨m, hm⟩ := parseUnsigned_den rest q' hq'
        have : (-q').den = q'.den := by simp
        rw [this]
        exact dvd_ten_pow_self _ m q'.den_nz hm
      · obtain ⟨m, hm⟩ := parseUnsigned_den rest q h
        exact dvd_ten_pow_self _ m q.den_nz hm
      · obtain ⟨m, hm⟩ := parseUnsigned_den (c :: rest) q h
        exact dvd_ten_pow_self _ m q.den_nz hm

/-! ### Normalization: modal width, padding and column coercion -/

theorem dedup_const (w : Nat) (l : List Nat) (hne : l ≠ []) (hall : ∀ x ∈ l, x = w) :
    l.dedup = [w] := by
  induction l with
  | nil => cases hne rfl
  | cons a t ih =>
      have ha : a = w := hall a (List.mem_cons_self a t)
      subst ha
      cases t with
      | nil => rfl
      | cons b t2 =>
          have hb : b = a := (hall b (by simp)).trans (hall a (by simp)).symm
          have hmem : a ∈ b :: t2 := by rw [hb]; exact List.mem_cons_self a t2
          rw [List.dedup_cons_of_mem hmem]
          exact ih (by simp) (fun x hx => hall x (List.mem_cons_of_mem _ hx))

theorem modeLen_const (w : Nat) (l : List Nat) (hne : l ≠ []) (hall : ∀ x ∈ l, x = w) :
    modeLen l = w := by
  rw [modeLen, dedup_const w l hne hall]
  rfl

theorem padTrunc_length (w : Nat) (r : List String) : (padTrunc w r).length = w := by
  rw [padTrunc]
  split_ifs with h1 h2
  · simp only [List.length_append, List.length_replicate]
    omega
  · simp only [List.length_take]
    omega
  · omega

theorem padTrunc_id (w : Nat) (r : List String) (h : r.length = w) : padTrunc w r = r := by
  simp [padTrunc, h]

theorem length_coerceColumns (header : List String) (cells : List (List Cell)) :
    (coerceColumns header cells).length = cells.length := by
  simp [coerceColumns]

theorem colFlags_length (header : List String) (cells : List (List Cell)) :
    (colFlags header cells).length = header.length := by
  simp [colFlags]

theorem zipWith_applyFlag_getD (header : List String) (cells : List (List Cell)) (w : Nat)
    (hw : header.length = w) (r : List Cell) (hr : r.length = w)
    (j : Nat) (hj : j < w) :
    (List.zipWith applyFlag (colFlags header cells) r).getD j Cell.missing
      = applyFlag (labelUnique header j && colAllNumeric cells j)
          (r.getD j Cell.missing) := by
  have hfl : (colFlags header cells).length = w := by rw [colFlags_length, hw]
  have hzl : (List.zipWith applyFlag (colFlags header cells) r).length = w := by
    rw [List.length_zipWith, hfl, hr, Nat.min_self]
  rw [List.getD_eq_getElem _ _ (hzl ▸ hj), List.getD_eq_getElem _ _ (hr ▸ hj),
    List.getElem_zipWith]
  congr 1
  simp [colFlags]

theorem column_coerceColumns (header : List String) (cells : List (List Cell)) (w : Nat)
    (hw : header.length = w) (hrect : ∀ r ∈ cells, r.length = w) (j : Nat) (hj : j < w) :
    column (coerceColumns header cells) j
      = (column cells j).map (applyFlag (labelUnique header j && colAllNumeric cells j)) := by
  simp only [column, coerceColumns, List.map_map]
  refine List.map_congr_left ?_
  intro r hr
  exact zipWith_applyFlag_getD header cells w hw r (hrect r hr) j hj

/-- C6 (amended): numeric coercion in `clean_and_normalize_data` is
column-wide and all-or-nothing for every column whose header label occurs
exactly once: when every cell of such a column converts, the whole column is
stored as numeric (each cell missing or numeric); when any cell fails, or
when the column's label is duplicated in the header (so the label-indexed
`df[col]` never reaches a successful `to_numeric`), every cell of the column
stays exactly as it was.  Concretely, the column `["10","20","30"]` becomes
numeric and the column `["10","abc","30"]` stays text in every cell. -/
theorem numeric_coercion_all_or_nothing (header : List String) (cells : List (List Cell))
    (w j : Nat) (hw : header.length = w) (hrect : ∀ r ∈ cells, r.length = w) (hj : j < w) :
    (labelUnique header j = true → colAllNumeric cells j = true →
        column (coerceColumns header cells) j = (column cells j).map coerceCell
        ∧ ∀ c ∈ column (coerceColumns header cells) j,
            c = Cell.missing ∨ ∃ q, c = Cell.num q)
    ∧ (labelUnique header j = false ∨ colAllNumeric cells j = false →
        column (coerceColumns header cells) j = column cells j)
    ∧ clean_and_normalize_data [["h"], ["10"], ["20"], ["30"]]
        = ⟨["h"], [[Cell.num 10], [Cell.num 20], [Cell.num 30]]⟩
    ∧ clean_and_normalize_data [["h"], ["10"], ["abc"], ["30"]]
        = ⟨["h"], [[Cell.str "10"], [Cell.str "abc"], [Cell.str "30"]]⟩ := by
  have hcol := column_coerceColumns header cells w hw hrect j hj
  refine ⟨?_, ?_, ?_, ?_⟩
  · intro huniq hall
    have hflag : (labelUnique header j && colAllNumeric cells j) = true := by
      rw [huniq, hall]
      rfl
    rw [hflag] at hcol
    have hmap : column (coerceColumns header cells) j = (column cells j).map coerceCell := by
      rw [hcol]
      exact List.map_congr_left (fun c _ => by simp [applyFlag])
    refine ⟨hmap, ?_⟩
    intro c hc
    rw [hmap] at hc
    obtain ⟨c0, hc0, rfl⟩ := List.mem_map.mp hc
    have hp : cellParses c0 = true := by
      rw [colAllNumeric, List.all_eq_true] at hall
      exact hall c0 hc0
    cases c0 with
    | missing => exact Or.inl rfl
    | num q => exact Or.inr ⟨q, rfl⟩
    | str s =>
        rw [cellParses] at hp
        obtain ⟨q, hq⟩ := Option.isSome_iff_exists.mp hp
        exact Or.inr ⟨q, by simp [coerceCell, hq]⟩
  · intro hfail
    have hflag : (labelUnique header j && colAllNumeric cells j) = false := by
      rcases hfail with h | h <;> simp [h]
    rw [hflag] at hcol
    rw [hcol]
    exact (List.map_congr_left (fun c _ => by simp [applyFlag])).trans (List.map_id _)
  · norm_num +decide [clean_and_normalize_data, modeLen, padTrunc, toCell, coerceColumns,
      colFlags, labelUnique, colAllNumeric, column, cellParses, coerceCell, applyFlag,
      parseNum, parseUnsigned, readDigitsAux, digit?, List.span, List.span.loop, List.dedup,
      List.insertionSort, List.orderedInsert, List.count_cons, List.count_nil, List.count,
      List.zipWith, List.range, List.getD, List.cons_ne_nil]
  · norm_num +decide [clean_and_normalize_data, modeLen, padTrunc, toCell, coerceColumns,
      colFlags, labelUnique, colAllNumeric, column, cellParses, coerceCell, applyFlag,
      parseNum, parseUnsigned, readDigitsAux, digit?, List.span, List.span.loop, List.dedup,
      List.insertionSort, List.orderedInsert, List.count_cons, List.count_nil, List.count,
      List.zipWith, List.range, List.getD, List.cons_ne_nil]

theorem numeric_coercion_all_or_nothing_witness :
    ((labelUnique ["a"] 0 = true → colAllNumeric [[Cell.str "10"], [Cell.str "abc"]] 0 = true →
        column (coerceColumns ["a"] [[Cell.str "10"], [Cell.str "abc"]]) 0
          = (column [[Cell.str "10"], [Cell.str "abc"]] 0).map coerceCell
        ∧ ∀ c ∈ column (coerceColumns ["a"] [[Cell.str "10"], [Cell.str "abc"]]) 0,
            c = Cell.missing ∨ ∃ q, c = Cell.num q)
    ∧ (labelUnique ["a"] 0 = false
          ∨ colAllNumeric [[Cell.str "10"], [Cell.str "abc"]] 0 = false →
        column (coerceColumns ["a"] [[Cell.str "10"], [Cell.str "abc"]]) 0
          = column [[Cell.str "10"], [Cell.str "abc"]] 0)
    ∧ clean_and_normalize_data [["h"], ["10"], ["20"], ["30"]]
        = ⟨["h"], [[Cell.num 10], [Cell.num 20], [Cell.num 30]]⟩
    ∧ clean_and_normalize_data [["h"], ["10"], ["abc"], ["30"]]
        = ⟨["h"], [[Cell.str "10"], [Cell.str "abc"], [Cell.str "30"]]⟩) :=
  numeric_coercion_all_or_nothing ["a"] [[Cell.str "10"], [Cell.str "abc"]] 1 0
    (by decide) (by decide) (by decide)

/-- C6 counterexample: the claim's universal statement fails on the code.
In the grid `[["h"],["1","2","3"],["4","5","6"]]` the modal width is 3, the
header is padded to `["h","",""]`, and columns 1 and 2 carry the duplicated
label `""`; every one of their values converts to a number, yet both columns
stay text, because the label-indexed `df[col]` yields a DataFrame whose
`pd.to_numeric` call raises and is swallowed by the bare `except`. -/
theorem duplicate_label_column_not_coerced :
    clean_and_normalize_data [["h"], ["1", "2", "3"], ["4", "5", "6"]]
      = ⟨["h", "", ""],
         [[Cell.num 1, Cell.str "2", Cell.str "3"],
          [Cell.num 4, Cell.str "5", Cell.str "6"]]⟩
    ∧ column (clean_and_normalize_data [["h"], ["1", "2", "3"], ["4", "5", "6"]]).data 1
        = [Cell.str "2", Cell.str "5"]
    ∧ ∀ c ∈ [Cell.str "2", Cell.str "5"], cellParses c = true := by
  have hclean : clean_and_normalize_data [["h"], ["1", "2", "3"], ["4", "5", "6"]]
      = ⟨["h", "", ""],
         [[Cell.num 1, Cell.str "2", Cell.str "3"],
          [Cell.num 4, Cell.str "5", Cell.str "6"]]⟩ := by
    norm_num +decide [clean_and_normalize_data, modeLen, padTrunc, toCell, coerceColumns,
      colFlags, labelUnique, colAllNumeric, column, cellParses, coerceCell, applyFlag,
      parseNum, parseUnsigned, readDigitsAux, digit?, List.span, List.span.loop, List.dedup,
      List.insertionSort, List.orderedInsert, List.count_cons, List.count_nil, List.count,
      List.zipWith, List.range, List.getD, List.cons_ne_nil]
  refine ⟨hclean, ?_, by decide⟩
  rw [hclean]
  rfl

/-! ### Idempotence of normalization -/

theorem toCell_base (s : String) :
    toCell s = Cell.missing ∨ ∃ t, t ≠ "" ∧ toCell s = Cell.str t := by
  by_cases h : s = "" <;> simp [toCell, h]

theorem toCell_render_base (c : Cell)
    (h : c = Cell.missing ∨ ∃ s, s ≠ "" ∧ c = Cell.str s) :
    toCell (render c) = c := by
  rcases h with rfl | ⟨s, hs, rfl⟩
  · rfl
  · simp [render, toCell, hs]

theorem render_num_ne_empty (q : ℚ) : render (Cell.num q) ≠ "" := by
  rw [render]
  split_ifs with hq
  · intro hc
    have h2 : ('-' :: (renderNonneg (-q)).data : List Char) = [] := congrArg String.data hc
    simp at h2
  · obtain ⟨d, cs, hdata⟩ := renderNonneg_head q
    intro hc
    have h2 : (renderNonneg q).data = ([] : List Char) := congrArg String.data hc
    rw [hdata] at h2
    simp at h2

theorem applyFlag_render_step (flag : Bool) (c : Cell)
    (hbase : c = Cell.missing ∨ ∃ s, s ≠ "" ∧ c = Cell.str s)
    (hflag : flag = true → cellParses c = true) :
    applyFlag flag (toCell (render (applyFlag flag c))) = applyFlag flag c := by
  cases flag with
  | false =>
      simp only [applyFlag, Bool.false_eq_true, if_false]
      exact toCell_render_base c hbase
  | true =>
      have hp := hflag rfl
      rcases hbase with rfl | ⟨s, hs, rfl⟩
      · rfl
      · rw [cellParses] at hp
        obtain ⟨q, hq⟩ := Option.isSome_iff_exists.mp hp
        have hrt := parseNum_render_num q (parseNum_den_dvd s q hq)
        have h1 : applyFlag true (Cell.str s) = Cell.num q := by simp [applyFlag, coerceCell, hq]
        rw [h1]
        have h2 : toCell (render (Cell.num q)) = Cell.str (render (Cell.num q)) := by
          simp [toCell, render_num_ne_empty q]
        rw [h2]
        simp [applyFlag, coerceCell, hrt]

theorem zipWith_row_stable (flags : List Bool) :
    ∀ r : List Cell,
      (∀ p ∈ flags.zip r, (p.1 = true → cellParses p.2 = true)
          ∧ (p.2 = Cell.missing ∨ ∃ s, s ≠ "" ∧ p.2 = Cell.str s)) →
      List.zipWith applyFlag flags
          ((List.zipWith applyFlag flags r).map (fun c => toCell (render c)))
        = List.zipWith applyFlag flags r := by
  induction flags with
  | nil => intro r _; simp
  | cons f fs ih =>
      intro r h
      cases r with
      | nil => simp
      | cons c cs =>
          simp only [List.zipWith_cons_cons, List.map_cons]
          have hhead := h (f, c) (by simp [List.zip_cons_cons])
          rw [applyFlag_render_step f c hhead.2 hhead.1]
          congr 1
          exact ih cs (fun p hp => h p (by simp [List.zip_cons_cons, hp]))

theorem column_mem_base (C : List (List Cell)) (w : Nat)
    (hrect : ∀ r ∈ C, r.length = w)
    (hbase : ∀ r ∈ C, ∀ c ∈ r, c = Cell.missing ∨ ∃ s, s ≠ "" ∧ c = Cell.str s)
    (j : Nat) (hj : j < w) :
    ∀ c ∈ column C j, c = Cell.missing ∨ ∃ s, s ≠ "" ∧ c = Cell.str s := by
  intro c hc
  obtain ⟨r, hr, rfl⟩ := List.mem_map.mp hc
  have hjr : j < r.length := by rw [hrect r hr]; exact hj
  rw [List.getD_eq_getElem r _ hjr]
  exact hbase r hr _ (List.getElem_mem hjr)

theorem column_map_render (D : List (List Cell)) (w : Nat)
    (hDrect : ∀ r ∈ D, r.length = w) (j : Nat) (hj : j < w) :
    column (D.map (List.map (fun c => toCell (render c)))) j
      = (column D j).map (fun c => toCell (render c)) := by
  simp only [column, List.map_map]
  refine List.map_congr_left ?_
  intro r hr
  have hjr : j < r.length := by rw [hDrect r hr]; exact hj
  have hjr2 : j < (r.map (fun c => toCell (render c))).length := by simpa using hjr
  simp only [Function.comp_apply]
  rw [List.getD_eq_getElem _ _ hjr2, List.getD_eq_getElem _ _ hjr, List.getElem_map]

theorem coerceColumns_rect (header : List String) (C : List (List Cell)) (w : Nat)
    (hw : header.length = w) (hrect : ∀ r ∈ C, r.length = w) :
    ∀ r ∈ coerceColumns header C, r.length = w := by
  intro r hr
  rw [coerceColumns] at hr
  obtain ⟨r0, hr0, rfl⟩ := List.mem_map.mp hr
  have hfl : (colFlags header C).length = w := by rw [colFlags_length, hw]
  rw [List.length_zipWith, hfl, hrect r0 hr0, Nat.min_self]

theorem colAllNumeric_render_stable (header : List String) (C : List (List Cell)) (w : Nat)
    (hw : header.length = w)
    (hrect : ∀ r ∈ C, r.length = w)
    (hbase : ∀ r ∈ C, ∀ c ∈ r, c = Cell.missing ∨ ∃ s, s ≠ "" ∧ c = Cell.str s)
    (j : Nat) (hj : j < w) :
    colAllNumeric ((coerceColumns header C).map (List.map (fun c => toCell (render c)))) j
      = colAllNumeric C j := by
  have hDrect := coerceColumns_rect header C w hw hrect
  have h1 := column_map_render (coerceColumns header C) w hDrect j hj
  have h2 := column_coerceColumns header C w hw hrect j hj
  have hcolbase := column_mem_base C w hrect hbase j hj
  rw [colAllNumeric, h1, h2, List.map_map]
  cases hb : (labelUnique header j && colAllNumeric C j) with
  | false =>
      have hid : (column C j).map ((fun c => toCell (render c)) ∘ applyFlag false)
          = column C j := by
        refine (List.map_congr_left ?_).trans (List.map_id _)
        intro c hc
        simp only [Function.comp_apply, applyFlag, Bool.false_eq_true, if_false, id]
        exact toCell_render_base c (hcolbase c hc)
      rw [hid]
      rfl
  | true =>
      have hall : colAllNumeric C j = true := by
        rw [Bool.and_eq_true] at hb
        exact hb.2
      rw [hall, List.all_eq_true]
      intro c' hc'
      obtain ⟨c, hc, rfl⟩ := List.mem_map.mp hc'
      have hparse : cellParses c = true := by
        have hball := hall
        rw [colAllNumeric, List.all_eq_true] at hball
        exact hball c hc
      rcases hcolbase c hc with rfl | ⟨s, hs, rfl⟩
      · simp [Function.comp_apply, applyFlag, coerceCell, render, toCell, cellParses]
      · rw [cellParses] at hparse
        obtain ⟨q, hq⟩ := Option.isSome_iff_exists.mp hparse
        have hrt := parseNum_render_num q (parseNum_den_dvd s q hq)
        have h3 : toCell (render (Cell.num q)) = Cell.str (render (Cell.num q)) := by
          simp [toCell, render_num_ne_empty q]
        simp [Function.comp_apply, applyFlag, coerceCell, hq, h3, cellParses, hrt]

theorem colFlags_render_stable (header : List String) (C : List (List Cell)) (w : Nat)
    (hw : header.length = w)
    (hrect : ∀ r ∈ C, r.length = w)
    (hbase : ∀ r ∈ C, ∀ c ∈ r, c = Cell.missing ∨ ∃ s, s ≠ "" ∧ c = Cell.str s) :
    colFlags header ((coerceColumns header C).map (List.map (fun c => toCell (render c))))
      = colFlags header C := by
  rw [colFlags, colFlags]
  refine List.map_congr_left ?_
  intro j hjm
  have hj : j < w := hw ▸ List.mem_range.mp hjm
  rw [colAllNumeric_render_stable header C w hw hrect hbase j hj]

theorem coerceColumns_render_stable (header : List String) (C : List (List Cell)) (w : Nat)
    (hw : header.length = w)
    (hrect : ∀ r ∈ C, r.length = w)
    (hbase : ∀ r ∈ C, ∀ c ∈ r, c = Cell.missing ∨ ∃ s, s ≠ "" ∧ c = Cell.str s) :
    coerceColumns header ((coerceColumns header C).map (List.map (fun c => toCell (render c))))
      = coerceColumns header C := by
  conv_lhs => rw [coerceColumns]
  rw [colFlags_render_stable header C w hw hrect hbase]
  simp only [coerceColumns, List.map_map]
  refine List.map_congr_left ?_
  intro r hr
  simp only [Function.comp_apply]
  refine zipWith_row_stable (colFlags header C) r ?_
  intro p hp
  obtain ⟨i, hi, hpi⟩ := List.mem_iff_getElem.mp hp
  have hi2 := hi
  rw [List.length_zip] at hi2
  have hifl : i < (colFlags header C).length := lt_of_lt_of_le hi2 (min_le_left _ _)
  have hir : i < r.length := lt_of_lt_of_le hi2 (min_le_right _ _)
  have hiw : i < w := by
    have hfl : (colFlags header C).length = w := by rw [colFlags_length, hw]
    rw [hfl] at hifl
    exact hifl
  rw [List.getElem_zip] at hpi
  have hflags : (colFlags header C)[i] = (labelUnique header i && colAllNumeric C i) := by
    simp [colFlags]
  constructor
  · intro hp1
    rw [← hpi]
    simp only []
    rw [← hpi] at hp1
    simp only [] at hp1
    rw [hflags] at hp1
    have hall : colAllNumeric C i = true := by
      rw [Bool.and_eq_true] at hp1
      exact hp1.2
    have hmem : r[i] ∈ column C i := by
      rw [column]
      refine List.mem_map.mpr ⟨r, hr, ?_⟩
      rw [List.getD_eq_getElem r _ hir]
    rw [colAllNumeric, List.all_eq_true] at hall
    exact hall _ hmem
  · rw [← hpi]
    simp only []
    exact hbase r hr _ (List.getElem_mem hir)

/-- C8: `clean_and_normalize_data` is idempotent.  A table it produces,
rendered back to its rectangular grid of display strings (`toGrid`), is
normalized to the very same table: the modal width matches, no padding or
truncation changes any row, missing markers and coerced numeric columns
reproduce themselves, and text columns keep failing coercion. -/
theorem normalize_idempotent (g : List (List String)) :
    clean_and_normalize_data (toGrid (clean_and_normalize_data g)) = clean_and_normalize_data g := by
  by_cases hg : g = []
  · subst hg
    rfl
  · by_cases hW0 : modeLen (g.map List.length) = 0
    · have hcg : clean_and_normalize_data g = ⟨[], []⟩ := by
        simp only [clean_and_normalize_data]
        rw [if_neg hg, if_pos hW0]
      rw [hcg]
      rfl
    · set W := modeLen (g.map List.length) with hW
      have hcg : clean_and_normalize_data g
          = ⟨(g.map (padTrunc W)).headD [],
             coerceColumns ((g.map (padTrunc W)).headD [])
               (((g.map (padTrunc W)).tail).map (fun r => r.map toCell))⟩ := by
        simp only [clean_and_normalize_data]
        rw [if_neg hg, ← hW, if_neg hW0]
      set header := (g.map (padTrunc W)).headD [] with hheader
      set C := ((g.map (padTrunc W)).tail).map (fun r => r.map toCell) with hC
      have hCrect : ∀ r ∈ C, r.length = W := by
        intro r hr
        rw [hC] at hr
        obtain ⟨r0, hr0, rfl⟩ := List.mem_map.mp hr
        obtain ⟨r1, _, rfl⟩ := List.mem_map.mp (List.mem_of_mem_tail hr0)
        simp [padTrunc_length]
      have hCbase : ∀ r ∈ C, ∀ c ∈ r, c = Cell.missing ∨ ∃ s, s ≠ "" ∧ c = Cell.str s := by
        intro r hr c hc
        rw [hC] at hr
        obtain ⟨r0, _, rfl⟩ := List.mem_map.mp hr
        obtain ⟨s, _, rfl⟩ := List.mem_map.mp hc
        exact toCell_base s
      have hheaderW : header.length = W := by
        rw [hheader]
        cases g with
        | nil => exact absurd rfl hg
        | cons a t => simp [padTrunc_length]
      have hDrect := coerceColumns_rect header C W hheaderW hCrect
      rw [hcg]
      show clean_and_normalize_data
          (header :: (coerceColumns header C).map (fun r => r.map render)) = _
      have hmode : modeLen ((header :: (coerceColumns header C).map (fun r => r.map render)).map
          List.length) = W := by
        refine modeLen_const W _ (by simp) ?_
        intro x hx
        simp only [List.map_cons, List.mem_cons, List.map_map] at hx
        rcases hx with rfl | hx
        · exact hheaderW
        · obtain ⟨r, hr, rfl⟩ := List.mem_map.mp hx
          simp only [Function.comp_apply, List.length_map]
          exact hDrect r hr
      simp only [clean_and_normalize_data]
      rw [if_neg (List.cons_ne_nil _ _), hmode, if_neg hW0]
      have hpad : (header :: (coerceColumns header C).map (fun r => r.map render)).map
            (padTrunc W)
          = header :: (coerceColumns header C).map (fun r => r.map render) := by
        refine (List.map_congr_left ?_).trans (List.map_id _)
        intro r hr
        rcases List.mem_cons.mp hr with rfl | hrr
        · exact padTrunc_id W header hheaderW
        · obtain ⟨r0, hr0, rfl⟩ := List.mem_map.mp hrr
          exact padTrunc_id W _ (by simpa using hDrect r0 hr0)
      rw [hpad]
      simp only [List.headD_cons, List.tail_cons, List.map_map]
      have hfinal : ((coerceColumns header C).map
            ((fun r => List.map toCell r) ∘ fun r => List.map render r))
          = (coerceColumns header C).map (List.map (fun c => toCell (render c))) := by
        refine List.map_congr_left ?_
        intro r _
        simp [List.map_map, Function.comp]
      rw [hfinal, coerceColumns_render_stable header C W hheaderW hCrect hCbase]
